import Mathlib

/-!
# Verification of the `ai_rag` pipeline against its specification

Shallow embedding of the Python sources (`text_processor.py`, `crawler.py`,
`rag_pipeline.py`, `vector_store.py`, `api.py`) of the `ai_rag` repository.
Python strings are modelled as `List Char`; machine wall-clock timings are
dropped (they carry no logic); external services (the HTTP fetcher, the
embedding service, the vector index, the language model, `urllib` URL
resolution and Python's hash-ordered `set`) are modelled as parameters with
their documented contracts.
-/

set_option maxRecDepth 4000

/-! ## Python string primitives -/

/-- ASCII whitespace as recognised by Python's `str.strip()` and the regex
class `\s` (space, tab, newline, carriage return, vertical tab, form feed). -/
def pySpace (c : Char) : Bool :=
  c = ' ' || c = '\t' || c = '\n' || c = '\r' || c = Char.ofNat 11 || c = Char.ofNat 12

/-- Python `str.strip()`: drop leading and trailing whitespace. -/
def pyStrip (s : List Char) : List Char :=
  ((s.dropWhile pySpace).reverse.dropWhile pySpace).reverse

/-- Python regex `\w` (word character), ASCII fragment: letters, digits, `_`. -/
def isWordChar (c : Char) : Bool :=
  c.isAlphanum || c = '_'

/-- Index of the rightmost occurrence of `pat` in `s` (Python `str.rfind`),
or `none` when `pat` does not occur. -/
def rfindSub (pat s : List Char) : Option Nat :=
  ((List.range (s.length + 1)).filter (fun i => pat.isPrefixOf (s.drop i))).max?

/-- Python `str.rfind` with its `-1` convention for "not found". -/
def rfindI (pat s : List Char) : Int :=
  match rfindSub pat s with
  | none => -1
  | some i => (i : Int)

/-! ## `TextProcessor.chunk_text` (text_processor.py, lines 103-162)

The Python loop keeps a cursor `start`; each iteration computes a window end,
optionally snaps it back to a sentence boundary, extracts and strips the
slice, keeps it when it is longer than 50 characters, and advances the
cursor.  The loop is not structurally terminating (the progress guard of the
source only fires when `end - overlap` is negative), so the embedding uses
explicit fuel and returns `none` when the fuel runs out.  Since the cursor
transition is a deterministic function of `start` alone, a run of the Python
loop that performs more than `text.length` iterations must revisit a cursor
value and hence never terminates; so fuel `text.length + 1` is exact:
`chunk_text` returns `some` iff the Python loop terminates, with the same
chunk list. -/

/-- The adjusted window end: `end = min(start + chunk_size, len)`, snapped
back to the last `". "`/`"! "`/`"? "` (or, failing that, `"\n"`) in the
window when that break point lies beyond `chunk_size // 2`
(text_processor.py lines 122-143). -/
def windowEnd (chunk_size : Nat) (text : List Char) (start : Nat) : Nat :=
  let e := min (start + chunk_size) text.length
  if e < text.length then
    let ct := (text.drop start).take (e - start)
    let ls := max (max (rfindI ['.', ' '] ct) (rfindI ['!', ' '] ct)) (rfindI ['?', ' '] ct)
    let ls := if ls = -1 then rfindI ['\n'] ct else ls
    if ls ≠ -1 ∧ (chunk_size / 2 : Int) < ls then start + ls.toNat + 1 else e
  else e

/-- Cursor advance (text_processor.py lines 156-160):
`start = end - overlap; if start < 0: start = end` on Python integers. -/
def nextStart (chunk_overlap e : Nat) : Nat :=
  if e < chunk_overlap then e else e - chunk_overlap

/-- The keep-guard of text_processor.py line 149:
`if chunk and len(chunk) > 50`. -/
def keepChunk (c : List Char) : Bool :=
  !c.isEmpty && 50 < c.length

/-- The chunking loop body, fuel-indexed (see the module comment above). -/
def chunkTextGo (chunk_size chunk_overlap : Nat) (text : List Char) :
    Nat → Nat → Option (List (List Char))
  | 0, _ => none
  | fuel + 1, start =>
    if start < text.length then
      let e := windowEnd chunk_size text start
      let chunk := pyStrip ((text.drop start).take (e - start))
      let kept := if keepChunk chunk then [chunk] else []
      if text.length ≤ e then some kept
      else (chunkTextGo chunk_size chunk_overlap text fuel (nextStart chunk_overlap e)).map
        (kept ++ ·)
    else some []

/-- `TextProcessor.chunk_text`.  `none` models a non-terminating run of the
Python loop. -/
def chunk_text (chunk_size chunk_overlap : Nat) (text : List Char) :
    Option (List (List Char)) :=
  if text.length < 50 then some []
  else chunkTextGo chunk_size chunk_overlap text (text.length + 1) 0

/-- Companion of `chunkTextGo` that records every produced (stripped) slice,
kept or not.  `chunkTextGo` is exactly `chunkSlicesGo` followed by the
`keepChunk` filter (proved below), which makes the discard criterion of the
source explicit. -/
def chunkSlicesGo (chunk_size chunk_overlap : Nat) (text : List Char) :
    Nat → Nat → Option (List (List Char))
  | 0, _ => none
  | fuel + 1, start =>
    if start < text.length then
      let e := windowEnd chunk_size text start
      let chunk := pyStrip ((text.drop start).take (e - start))
      if text.length ≤ e then some [chunk]
      else (chunkSlicesGo chunk_size chunk_overlap text fuel (nextStart chunk_overlap e)).map
        (chunk :: ·)
    else some []

/-! ## `TextProcessor.clean_text` (text_processor.py, lines 29-72)

Each `re.sub` pass becomes one recursive scan.  Leftmost-longest matching of
the concrete patterns is worked out per pattern; the scans resume after each
match, as `re.sub` does. -/

/-- A character matched by the repeated group of the URL regex of line 40:
`[a-zA-Z]|[0-9]|[$-_@.&+]|[!*\(\),]` (with `[$-_]` a character range that
already contains `$%&'()*+,-./0-9:;<=>?@A-Z[\]^_`; the `%xx` alternative adds
nothing since `%` and the hex digits are all in that range). -/
def urlChar (c : Char) : Bool :=
  c.isAlphanum || (36 ≤ c.toNat && c.toNat ≤ 95) || c = '!'

/-- Length of the match of the URL regex `http[s]?://(?:…)+` at the head of
`s`, if any: the literal prefix followed by a non-empty maximal run of
`urlChar`s. -/
def matchUrl (s : List Char) : Option Nat :=
  if ("https://".data).isPrefixOf s && urlChar ((s.drop 8).headD ' ') then
    some (8 + ((s.drop 8).takeWhile urlChar).length)
  else if ("http://".data).isPrefixOf s && urlChar ((s.drop 7).headD ' ') then
    some (7 + ((s.drop 7).takeWhile urlChar).length)
  else none

/-- `re.sub(r'http[s]?://…', '', text)` (line 40).  When a match of length
`n ≥ 7` starts at `c :: s`, the scan resumes after it: `(c :: s).drop n =
s.drop (n - 1)`.  The scan consumes at least one character per step, so
structural fuel equal to the input length is exact (the fuel-exhausted case
is unreachable); the same scheme is used for every scanning pass below so
that the kernel can evaluate them. -/
def removeUrlsGo : Nat → List Char → List Char
  | _, [] => []
  | 0, _ :: _ => []
  | fuel + 1, c :: s =>
    match matchUrl (c :: s) with
    | some n => removeUrlsGo fuel (s.drop (n - 1))
    | none => c :: removeUrlsGo fuel s

/-- Line 40, at full fuel. -/
def removeUrls (s : List Char) : List Char := removeUrlsGo s.length s

/-- `re.sub(r'\S+@\S+', '', text)` (line 43): a maximal non-whitespace run
is deleted exactly when it contains `'@'` at an interior position (the two
greedy `\S+` then stretch the match over the whole run). -/
def removeEmailsGo : Nat → List Char → List Char
  | _, [] => []
  | 0, _ :: _ => []
  | fuel + 1, c :: s =>
    if pySpace c then c :: removeEmailsGo fuel s
    else
      let run := (c :: s).takeWhile (fun x => !pySpace x)
      let rest := (c :: s).dropWhile (fun x => !pySpace x)
      (if ((run.drop 1).dropLast).contains '@' then [] else run) ++ removeEmailsGo fuel rest

/-- Line 43, at full fuel. -/
def removeEmails (s : List Char) : List Char := removeEmailsGo s.length s

/-- `re.sub(r'\s+', ' ', text)` (line 46): every maximal whitespace run
becomes a single space. -/
def collapseWsGo : Nat → List Char → List Char
  | _, [] => []
  | 0, _ :: _ => []
  | fuel + 1, c :: s =>
    if pySpace c then ' ' :: collapseWsGo fuel (s.dropWhile pySpace)
    else c :: collapseWsGo fuel s

/-- Line 46, at full fuel. -/
def collapseWs (s : List Char) : List Char := collapseWsGo s.length s

/-- The class `[.!?]` of line 49. -/
def sentencePunct (c : Char) : Bool :=
  c = '.' || c = '!' || c = '?'

/-- `re.sub(r'([.!?]){2,}', r'\1', text)` (line 49): a maximal run of at
least two sentence-punctuation characters is replaced by its final character
(the group's last repetition). -/
def collapsePunctGo : Nat → List Char → List Char
  | _, [] => []
  | 0, _ :: _ => []
  | fuel + 1, c :: s =>
    if sentencePunct c then
      let run := (c :: s).takeWhile sentencePunct
      let rest := (c :: s).dropWhile sentencePunct
      (if 2 ≤ run.length then [run.getLastD ' '] else run) ++ collapsePunctGo fuel rest
    else c :: collapsePunctGo fuel s

/-- Line 49, at full fuel. -/
def collapsePunct (s : List Char) : List Char := collapsePunctGo s.length s

/-- The allow-list of `re.sub(r'[^\w\s.,!?;:()\-\'\"]+', '', text)`
(line 53). -/
def allowedChar (c : Char) : Bool :=
  isWordChar c || pySpace c ||
    c = '.' || c = ',' || c = '!' || c = '?' || c = ';' || c = ':' ||
    c = '(' || c = ')' || c = '-' || c = '\'' || c = '"'

/-- Line 53: delete every character outside the allow-list. -/
def removeSpecialChars (s : List Char) : List Char :=
  s.filter allowedChar

/-- `re.sub(r'\b\d+\b', '', text)` (line 56): delete a maximal digit run
whose neighbours in the string are absent or non-word characters.
`prevWord` records whether the character immediately before the current
scan position is a word character (`false` at the start of the string). -/
def rsnGo : Nat → Bool → List Char → List Char
  | _, _, [] => []
  | 0, _, _ :: _ => []
  | fuel + 1, prevWord, c :: s =>
    if c.isDigit && !prevWord then
      let run := (c :: s).takeWhile Char.isDigit
      let rest := (c :: s).dropWhile Char.isDigit
      (if isWordChar (rest.headD ' ') then run else []) ++ rsnGo fuel true rest
    else c :: rsnGo fuel (isWordChar c) s

/-- Line 56, at the start of the string, at full fuel. -/
def removeStandaloneNumbers (s : List Char) : List Char :=
  rsnGo s.length false s

/-- Case-insensitive literal prefix match (the patterns are lower-case
ASCII, re.IGNORECASE). -/
def ciPrefix (pat s : List Char) : Bool :=
  pat.length ≤ s.length && (s.take pat.length).map Char.toLower == pat

/-- The alternatives of line 59, in alternation order.  All four start with
distinct letters, so at most one matches at a given position. -/
def webArtifacts : List (List Char) :=
  [("click here".data), ("read more".data), ("learn more".data), ("skip to content".data)]

/-- `re.sub(r'(click here|read more|learn more|skip to content)', '', text,
flags=re.IGNORECASE)` (line 59). -/
def removeArtifactsGo : Nat → List Char → List Char
  | _, [] => []
  | 0, _ :: _ => []
  | fuel + 1, c :: s =>
    match (webArtifacts.filter (fun p => ciPrefix p (c :: s))).head? with
    | some p => removeArtifactsGo fuel (s.drop (p.length - 1))
    | none => c :: removeArtifactsGo fuel s

/-- Line 59, at full fuel. -/
def removeArtifacts (s : List Char) : List Char := removeArtifactsGo s.length s

/-- Python `str.replace(pat, rep)` for a non-empty `pat`: replace every
leftmost, non-overlapping occurrence. -/
def replaceSubGo (pat rep : List Char) : Nat → List Char → List Char
  | _, [] => []
  | 0, _ :: _ => []
  | fuel + 1, c :: s =>
    if pat.isPrefixOf (c :: s) && !pat.isEmpty then
      rep ++ replaceSubGo pat rep fuel (s.drop (pat.length - 1))
    else c :: replaceSubGo pat rep fuel s

/-- Python `str.replace`, at full fuel. -/
def replaceSub (pat rep s : List Char) : List Char := replaceSubGo pat rep s.length s

/-- Lines 62-63 ("normalize quotes").  Line 62 replaces `"` by `"` twice —
an identity.  Line 63 reads `text.replace(''', "'").replace(''', "'")`, in
which the first `'''` opens a triple-quoted string literal: it parses as a
single call replacing the fifteen-character literal `, "'").replace(` by
`'` (checked against CPython's ast module). -/
def normalizeQuotes (s : List Char) : List Char :=
  replaceSub ((", \"'\").replace(".data)) ("'".data) s

/-- Lines 66-70: strip, split on newlines, strip each line, drop the empty
ones, join with single spaces. -/
def finalTidy (s : List Char) : List Char :=
  List.intercalate [' ']
    ((((pyStrip s).splitOn '\n').map pyStrip).filter (fun l => !l.isEmpty))

/-- `TextProcessor.clean_text` (lines 29-72): the full substitution pipeline
in source order. -/
def clean_text (s : List Char) : List Char :=
  finalTidy (normalizeQuotes (removeArtifacts (removeStandaloneNumbers
    (removeSpecialChars (collapsePunct (collapseWs (removeEmails (removeUrls s))))))))

/-! ## `TextProcessor.remove_noise_lines` and `process_documents`
(text_processor.py, lines 74-101 and 164-218) -/

/-- One pass of `re.sub(pat, '', text, flags=re.IGNORECASE)` for a literal
(non-empty) pattern: delete every leftmost, non-overlapping occurrence. -/
def removePhraseGo (pat : List Char) : Nat → List Char → List Char
  | _, [] => []
  | 0, _ :: _ => []
  | fuel + 1, c :: s =>
    if ciPrefix pat (c :: s) && !pat.isEmpty then
      removePhraseGo pat fuel (s.drop (pat.length - 1))
    else c :: removePhraseGo pat fuel s

/-- A case-insensitive deletion pass, at full fuel. -/
def removePhrase (pat s : List Char) : List Char := removePhraseGo pat s.length s

/-- Length of the match of `copyright\s*©?\s*\d{4}` at the head of `s`, if
any (case-insensitive; `©` is U+00A9). -/
def matchCopyright (s : List Char) : Option Nat :=
  if ciPrefix ("copyright".data) s then
    let r1 := s.drop 9
    let w1 := (r1.takeWhile pySpace).length
    let r2 := r1.drop w1
    let cc := if r2.headD ' ' = Char.ofNat 0xA9 then 1 else 0
    let r3 := r2.drop cc
    let w2 := (r3.takeWhile pySpace).length
    let r4 := r3.drop w2
    if (r4.take 4).length = 4 && (r4.take 4).all Char.isDigit then
      some (9 + w1 + cc + w2 + 4)
    else none
  else none

/-- The pass for the `copyright\s*©?\s*\d{4}` pattern (a match has length
at least 13, so the scan resumes strictly later). -/
def removeCopyrightGo : Nat → List Char → List Char
  | _, [] => []
  | 0, _ :: _ => []
  | fuel + 1, c :: s =>
    match matchCopyright (c :: s) with
    | some n => removeCopyrightGo fuel (s.drop (n - 1))
    | none => c :: removeCopyrightGo fuel s

/-- The `copyright` pass, at full fuel. -/
def removeCopyright (s : List Char) : List Char := removeCopyrightGo s.length s

/-- The nine literal noise patterns of lines 85-96, in source order (after
the `copyright` pattern). -/
def noisePhrases : List (List Char) :=
  [("all rights reserved".data), ("privacy policy".data), ("terms of service".data),
   ("cookie policy".data), ("accept cookies".data), ("we use cookies".data),
   ("subscribe to our newsletter".data), ("follow us on".data),
   ("share on social media".data)]

/-- `TextProcessor.remove_noise_lines` (lines 74-101): one substitution pass
per pattern, in source order. -/
def remove_noise_lines (s : List Char) : List Char :=
  noisePhrases.foldl (fun t p => removePhrase p t) (removeCopyright s)

/-- A crawled page as consumed by `process_documents`: the `url`, `title`
and `content` fields of the page dictionaries built by the crawler. -/
structure Document where
  url : List Char
  title : List Char
  content : List Char
deriving DecidableEq, Repr

/-- One output chunk of `TextProcessor.process_documents` with its metadata
(text_processor.py lines 201-209). -/
structure Chunk where
  text : List Char
  url : List Char
  title : List Char
  chunk_id : Nat
  total_chunks : Nat
  char_count : Nat
deriving DecidableEq, Repr

/-- `TextProcessor.process_documents` (lines 164-218): clean each document,
skip it when the cleaned text is shorter than 100 characters or yields no
chunks, otherwise stamp each chunk with its metadata.  `none` when the
chunker diverges on some document. -/
def process_documents (chunk_size chunk_overlap : Nat) :
    List Document → Option (List Chunk)
  | [] => some []
  | d :: ds =>
    let cleaned := remove_noise_lines (clean_text d.content)
    if cleaned.length < 100 then process_documents chunk_size chunk_overlap ds
    else
      match chunk_text chunk_size chunk_overlap cleaned with
      | none => none
      | some [] => process_documents chunk_size chunk_overlap ds
      | some cks =>
        (process_documents chunk_size chunk_overlap ds).map fun rest =>
          (cks.enum.map fun ic =>
            { text := ic.2, url := d.url, title := d.title, chunk_id := ic.1,
              total_chunks := cks.length, char_count := ic.2.length }) ++ rest

/-! ## `WebCrawler.extract_links` and the frontier update (crawler.py)

`urllib.parse.urljoin` / `urlparse` are library calls and enter the model as
parameters; likewise the `list(set(links))` conversion of line 241, whose
iteration order Python leaves unspecified, is a parameter constrained (where
a claim needs it) to return a duplicate-free list with the same members. -/

/-- The fragment of `urllib.parse.urlparse`'s result that `is_valid_url`
consults. -/
structure ParsedUrl where
  scheme : List Char
  netloc : List Char
deriving DecidableEq, Repr

/-- The two `urllib` services used by the crawler. -/
structure UrlLib where
  urljoin : List Char → List Char → List Char
  urlparse : List Char → ParsedUrl

/-- `skip_extensions` of crawler.py line 66. -/
def skipExtensions : List (List Char) :=
  [(".pdf".data), (".zip".data), (".jpg".data), (".jpeg".data), (".png".data),
   (".gif".data), (".css".data), (".js".data)]

/-- `WebCrawler.is_valid_url` (crawler.py lines 53-75). -/
def is_valid_url (lib : UrlLib) (domain : List Char) (visited : List (List Char))
    (url : List Char) : Bool :=
  let parsed := lib.urlparse url
  !(skipExtensions.any (fun ext => ext.isSuffixOf (url.map Char.toLower))) &&
    parsed.netloc == domain &&
    (parsed.scheme == ("http".data) || parsed.scheme == ("https".data)) &&
    !(visited.contains url) &&
    !(['#'].isSuffixOf url)

/-- The tuple of `href.startswith(('javascript:', 'mailto:', 'tel:', '#'))`
(crawler.py line 226). -/
def skipPrefixes : List (List Char) :=
  [("javascript:".data), ("mailto:".data), ("tel:".data), ("#".data)]

/-- Lines 229-236: resolve an `href` to an absolute URL, cut at the first
`#`, strip trailing slashes. -/
def canonicalizeHref (lib : UrlLib) (currentUrl href : List Char) : List Char :=
  let absolute := lib.urljoin currentUrl href
  let absolute := absolute.takeWhile (fun c => c ≠ '#')
  (absolute.reverse.dropWhile (fun c => c = '/')).reverse

/-- The `links` list of `extract_links` before the `set` conversion, in
discovery order (crawler.py lines 221-239). -/
def extractLinksRaw (lib : UrlLib) (domain : List Char) (visited : List (List Char))
    (hrefs : List (List Char)) (currentUrl : List Char) : List (List Char) :=
  hrefs.filterMap fun h =>
    if skipPrefixes.any (fun p => p.isPrefixOf h) then none
    else
      let u := canonicalizeHref lib currentUrl h
      if is_valid_url lib domain visited u then some u else none

/-- `WebCrawler.extract_links` (lines 210-241), ending in the
`list(set(links))` conversion `pySet`. -/
def extract_links (lib : UrlLib) (pySet : List (List Char) → List (List Char))
    (domain : List Char) (visited : List (List Char))
    (hrefs : List (List Char)) (currentUrl : List Char) : List (List Char) :=
  pySet (extractLinksRaw lib domain visited hrefs currentUrl)

/-- The frontier update of `WebCrawler.crawl` (lines 338-340): append each
new link that is in neither `visited` nor the current frontier. -/
def addLinksLoop (visited : List (List Char)) (frontier : List (List Char)) :
    List (List Char) → List (List Char)
  | [] => frontier
  | l :: ls =>
    if !(visited.contains l) && !(frontier.contains l) then
      addLinksLoop visited (frontier ++ [l]) ls
    else addLinksLoop visited frontier ls

/-- One link-collection step of `WebCrawler.crawl` for a retained page:
extract the page's links and push the new ones onto the frontier. -/
def crawlAddLinks (lib : UrlLib) (pySet : List (List Char) → List (List Char))
    (domain : List Char) (visited frontier : List (List Char))
    (hrefs : List Char → List (List Char)) (currentUrl : List Char) : List (List Char) :=
  addLinksLoop visited frontier
    (extract_links lib pySet domain visited (hrefs currentUrl) currentUrl)

/-! ## `VectorStore.search`, `RAGPipeline.retrieve` and
`RAGPipeline.generate_answer` (vector_store.py, rag_pipeline.py)

The embedding service, the index and the language model are external; each
call enters the model as an `Except` outcome (`.error` = the Python call
raised).  Similarity scores are modelled as rationals; wall-clock timing
fields are dropped. -/

/-- The metadata stored with an indexed chunk (vector_store.py lines
140-148; all values stringified). -/
structure ChunkMeta where
  url : List Char
  title : List Char
  chunk_id : List Char
  total_chunks : List Char
  char_count : List Char
deriving DecidableEq, Repr

/-- The nearest-neighbour answer of the index as unpacked by
`VectorStore.search` (lines 201-209). -/
structure RawQueryResult where
  documents : List (List Char)
  metadatas : List ChunkMeta
  distances : List ℚ
deriving DecidableEq, Repr

/-- The dictionary shape shared by `VectorStore.search` and
`RAGPipeline.retrieve` results (`error` is only ever set by `retrieve`). -/
structure RetrievalResult where
  query : List Char
  documents : List (List Char)
  metadatas : List ChunkMeta
  distances : List ℚ
  similarities : List ℚ
  count : Nat
  error : Option (List Char)
deriving DecidableEq, Repr

/-- `VectorStore.search` (vector_store.py lines 184-228): format the raw
result, converting each cosine distance `d` to the similarity `1 - d`; any
exception is logged and re-raised. -/
def search (query : List Char) (raw : Except (List Char) RawQueryResult) :
    Except (List Char) RetrievalResult :=
  match raw with
  | .error e => .error e
  | .ok r =>
    .ok { query := query, documents := r.documents, metadatas := r.metadatas,
          distances := r.distances,
          similarities := r.distances.map (fun d => 1 - d),
          count := r.documents.length, error := none }

/-- `RAGPipeline.retrieve` (rag_pipeline.py lines 51-108): a failing search
is caught and converted to an empty result carrying the error message. -/
def retrieve (query : List Char) (raw : Except (List Char) RawQueryResult) :
    RetrievalResult :=
  match search query raw with
  | .ok r => r
  | .error e =>
    { query := query, documents := [], metadatas := [], distances := [],
      similarities := [], count := 0, error := some e }

/-- The fixed instruction header of `create_prompt` (lines 131-141). -/
def promptHeader : List Char :=
  ("You are a helpful assistant that answers questions based ONLY on the provided context.\n\nIMPORTANT INSTRUCTIONS:\n- Answer the question using ONLY the information from the context below\n- If the answer cannot be found in the context, respond with: \"I don't have enough information to answer that question based on the available documentation.\"\n- Be concise but complete\n- Cite which sources you used by mentioning the source numbers (e.g., \"According to Source 1...\")\n- Do not make up information or use external knowledge\n\nCONTEXT:\n".data)

/-- `RAGPipeline.create_prompt` (lines 110-147). -/
def create_prompt (query : List Char) (docs : List (List Char))
    (metas : List ChunkMeta) : List Char :=
  let ctx := List.intercalate ("\n\n".data)
    (((docs.zip metas).enum).map fun p =>
      ("[Source ".data) ++ ((Nat.repr (p.1 + 1)).data) ++ (": ".data) ++
        p.2.2.title ++ ("]\n".data) ++ p.2.1)
  promptHeader ++ ctx ++ ("\n\nQUESTION: ".data) ++ query ++ ("\n\nANSWER:".data)

/-- One entry of the de-duplicated `sources` list (lines 241-246). -/
structure SourceEntry where
  title : List Char
  url : List Char
  relevance_score : ℚ
  chunk_id : List Char
deriving DecidableEq, Repr

/-- The source-assembly loop of `generate_answer` (lines 229-246): pair
metadata with similarity, keep only the first occurrence of each URL. -/
def buildSources (seen : List (List Char)) :
    List (ChunkMeta × ℚ) → List SourceEntry
  | [] => []
  | (m, sim) :: rest =>
    if seen.contains m.url then buildSources seen rest
    else
      { title := m.title, url := m.url, relevance_score := sim,
        chunk_id := m.chunk_id } :: buildSources (m.url :: seen) rest

/-- The answer dictionary of `generate_answer` (timings dropped; fields
absent from a given return dictionary are `none`). -/
structure AnswerResult where
  query : List Char
  answer : List Char
  sources : List SourceEntry
  num_chunks_used : Option Nat
  success : Bool
  error : Option (List Char)
deriving DecidableEq, Repr

/-- Line 184: the fixed no-information answer. -/
def noInfoAnswer : List Char :=
  ("I don't have any information to answer that question.".data)

/-- Line 272: the prefix of the error answer. -/
def errAnswerHead : List Char :=
  ("An error occurred while processing your question: ".data)

/-- `RAGPipeline.generate_answer` (rag_pipeline.py lines 149-279).  `raw`
is the outcome of the index query inside `retrieve`; `llm` maps the
assembled prompt to the outcome of the chat-completion call of line 207.
The returned `Bool` records whether that call site was reached.  The
function is total: the `try`/`except` of lines 176-279 converts every
in-scope exception into a result dictionary. -/
def generate_answer (query : List Char) (raw : Except (List Char) RawQueryResult)
    (llm : List Char → Except (List Char) (List Char)) : AnswerResult × Bool :=
  let rr := retrieve query raw
  if rr.count = 0 then
    ({ query := query, answer := noInfoAnswer, sources := [],
       num_chunks_used := none, success := false,
       error := some ("No relevant documents found".data) }, false)
  else
    match llm (create_prompt query rr.documents rr.metadatas) with
    | .error e =>
      ({ query := query, answer := errAnswerHead ++ e, sources := [],
         num_chunks_used := none, success := false, error := some e }, true)
    | .ok content =>
      ({ query := query, answer := pyStrip content,
         sources := buildSources [] (rr.metadatas.zip rr.similarities),
         num_chunks_used := some rr.documents.length, success := true,
         error := none }, true)

/-! ## The `/crawl` endpoint (`api.py`, lines 188-298)

The endpoint is modelled for a state whose vector store is initialised (the
`vector_store is None` guard precedes the in-flight check and touches no
state).  The crawler run, the collection clear and the document insertion
are external calls whose outcomes are parameters.  The state records the
in-flight flag and the vector-store contents; `IngestEffects` records which
index mutations were invoked. -/

/-- Process-wide state touched by `/crawl`: the `crawl_status["is_crawling"]`
flag and the vector-store contents. -/
structure ApiState where
  is_crawling : Bool
  store : List Chunk
deriving DecidableEq, Repr

/-- The reply of the endpoint: a `CrawlResponse` body, the 409 conflict, or
the 500 raised by the `except` clause of line 298. -/
inductive CrawlReply where
  | resp (success : Bool) (message : List Char) (pages_crawled : Option Nat)
      (chunks_created : Option Nat) (embeddings_generated : Option Nat)
  | conflict409
  | serverError500 (detail : List Char)
deriving DecidableEq, Repr

/-- Which vector-store mutations the request performed. -/
structure IngestEffects where
  clearCalled : Bool
  addCalled : Bool
deriving DecidableEq, Repr

/-- Outcome of the `VectorStore.add_documents` call of api.py line 270:
success, or an exception raised after `added` chunks were already inserted
(vector_store.py lines 133-172 insert in batches and re-raise on the first
failing batch, leaving the earlier batches in the index). -/
inductive AddOutcome where
  | ok
  | fail (added : Nat) (msg : List Char)
deriving DecidableEq, Repr

/-- `crawl_and_index` (api.py lines 188-298).  Returns the reply, the new
state and the performed index mutations; `none` models the request hanging
because the chunker diverges (no exit is reached).  On a failing clear the
store is modelled as unchanged (the real contents after a failed
delete/recreate are unspecified; no claim depends on that branch's store). -/
def crawl_and_index (chunk_size chunk_overlap : Nat) (st : ApiState)
    (crawlRes : Except (List Char) (List Document))
    (clearRes : Except (List Char) Unit) (addRes : AddOutcome) :
    Option (CrawlReply × ApiState × IngestEffects) :=
  if st.is_crawling then some (.conflict409, st, ⟨false, false⟩)
  else
    match crawlRes with
    | .error e =>
      some (.serverError500 (("Crawl failed: ".data) ++ e),
        { st with is_crawling := false }, ⟨false, false⟩)
    | .ok pages =>
      if pages.isEmpty then
        some (.resp false ("No pages were crawled. Please check the URL.".data)
          (some 0) none none, { st with is_crawling := false }, ⟨false, false⟩)
      else
        match process_documents chunk_size chunk_overlap pages with
        | none => none
        | some [] =>
          some (.resp false ("No chunks created. Content may be too short.".data)
            (some pages.length) (some 0) none,
            { st with is_crawling := false }, ⟨false, false⟩)
        | some chunks =>
          match clearRes with
          | .error e =>
            some (.serverError500 (("Crawl failed: ".data) ++ e),
              { is_crawling := false, store := st.store }, ⟨true, false⟩)
          | .ok _ =>
            match addRes with
            | .fail n e =>
              some (.serverError500 (("Crawl failed: ".data) ++ e),
                { is_crawling := false, store := chunks.take n }, ⟨true, true⟩)
            | .ok =>
              some (.resp true (("Successfully crawled and indexed ".data) ++
                  ((Nat.repr pages.length).data) ++ (" pages".data))
                (some pages.length) (some chunks.length) (some chunks.length),
                { is_crawling := false, store := chunks }, ⟨true, true⟩)

/-! ## Notions used to state the claims -/

/-- The slice-companion of `chunk_text`: the same loop, recording every
produced (stripped) slice whether kept or not. -/
def chunkSlices (chunk_size chunk_overlap : Nat) (text : List Char) :
    Option (List (List Char)) :=
  if text.length < 50 then some []
  else chunkSlicesGo chunk_size chunk_overlap text (text.length + 1) 0

/-- The re-joining operation of the spec's reconstruction invariant: drop
the trailing `overlap` characters of each non-final chunk and concatenate. -/
def rejoinChunks (overlap : Nat) : List (List Char) → List Char
  | [] => []
  | [c] => c
  | c :: cs => c.take (c.length - overlap) ++ rejoinChunks overlap cs

/-- `true` when the optional character is absent or not a word character. -/
def optNotWord (o : Option Char) : Bool :=
  match o with
  | none => true
  | some c => !isWordChar c

/-- A standalone number relative to a left context: a non-empty all-digit
segment whose right neighbour is absent or non-word, and whose left
neighbour is non-word — where a segment at the very head of `s` instead
requires the tracked previous character (`prevWord`) to be non-word. -/
def StandaloneNumCtx (prevWord : Bool) (s : List Char) : Prop :=
  ∃ u d v, s = u ++ d ++ v ∧ d ≠ [] ∧ d.all Char.isDigit = true ∧
    (match u.getLast? with
     | some c => isWordChar c = false
     | none => prevWord = false) ∧
    optNotWord v.head? = true

/-- A standalone number of a whole string: a maximal digit-only token
bounded by absent or non-word characters (the spec's notion). -/
def StandaloneNum (s : List Char) : Prop :=
  StandaloneNumCtx false s

/-- A small executable `urlparse` for witnesses: scheme before the first
`:`, netloc between `://` and the next `/`. -/
def demoParse (u : List Char) : ParsedUrl :=
  { scheme := u.takeWhile (fun c => c ≠ ':'),
    netloc := ((u.dropWhile (fun c => c ≠ ':')).drop 3).takeWhile (fun c => c ≠ '/') }

/-- A `UrlLib` for witnesses: hrefs are already absolute. -/
def demoLib : UrlLib :=
  { urljoin := fun _ href => href, urlparse := demoParse }

/-- The stripped slice produced by the window starting at `start`. -/
def windowChunk (chunk_size : Nat) (text : List Char) (start : Nat) : List Char :=
  pyStrip ((text.drop start).take (windowEnd chunk_size text start - start))

/-- The kept-chunk list of the window starting at `start`. -/
def windowKept (chunk_size : Nat) (text : List Char) (start : Nat) : List (List Char) :=
  if keepChunk (windowChunk chunk_size text start) then [windowChunk chunk_size text start]
  else []

/-! ## Shared lemmas -/

theorem chunkTextGo_succ (cs ov : Nat) (text : List Char) (n start : Nat) :
    chunkTextGo cs ov text (n + 1) start =
      if start < text.length then
        if text.length ≤ windowEnd cs text start then some (windowKept cs text start)
        else (chunkTextGo cs ov text n (nextStart ov (windowEnd cs text start))).map
          (windowKept cs text start ++ ·)
      else some [] := rfl

theorem chunkSlicesGo_succ (cs ov : Nat) (text : List Char) (n start : Nat) :
    chunkSlicesGo cs ov text (n + 1) start =
      if start < text.length then
        if text.length ≤ windowEnd cs text start then some [windowChunk cs text start]
        else (chunkSlicesGo cs ov text n (nextStart ov (windowEnd cs text start))).map
          (windowChunk cs text start :: ·)
      else some [] := rfl

theorem slice_substring (l : List Char) (a b : Nat) : (l.drop a).take b <:+: l :=
  ⟨l.take a, (l.drop a).drop b, by
    rw [List.append_assoc, List.take_append_drop, List.take_append_drop]⟩

theorem pyStrip_substring (s : List Char) : pyStrip s <:+: s := by
  have h2 : ((s.dropWhile pySpace).reverse.dropWhile pySpace) <:+
      (s.dropWhile pySpace).reverse := List.dropWhile_suffix _
  have h3 : pyStrip s <+: s.dropWhile pySpace := by
    have h4 := List.reverse_prefix.mpr h2
    simpa [pyStrip] using h4
  exact h3.isInfix.trans (List.dropWhile_suffix pySpace).isInfix

theorem windowChunk_substring (cs : Nat) (text : List Char) (start : Nat) :
    windowChunk cs text start <:+: text :=
  (pyStrip_substring _).trans (slice_substring ..)

theorem chunkTextGo_eq_filter (cs ov : Nat) (text : List Char) :
    ∀ fuel start, chunkTextGo cs ov text fuel start =
      (chunkSlicesGo cs ov text fuel start).map (List.filter keepChunk) := by
  intro fuel
  induction fuel with
  | zero => intro start; rfl
  | succ n ih =>
    intro start
    rw [chunkTextGo_succ, chunkSlicesGo_succ]
    by_cases h1 : start < text.length
    · simp only [if_pos h1]
      by_cases h2 : text.length ≤ windowEnd cs text start
      · simp only [if_pos h2, Option.map_some']
        congr 1
        by_cases hk : keepChunk (windowChunk cs text start)
        · simp [windowKept, List.filter_cons, hk]
        · simp [windowKept, List.filter_cons, hk]
      · simp only [if_neg h2, ih, Option.map_map]
        congr 1
        funext r
        by_cases hk : keepChunk (windowChunk cs text start)
        · simp [windowKept, List.filter_cons, hk]
        · simp [windowKept, List.filter_cons, hk]
    · simp [if_neg h1]

theorem chunk_text_eq_filter (cs ov : Nat) (text : List Char) :
    chunk_text cs ov text = (chunkSlices cs ov text).map (List.filter keepChunk) := by
  unfold chunk_text chunkSlices
  split
  · rfl
  · exact chunkTextGo_eq_filter ..

theorem keepChunk_length {c : List Char} (h : keepChunk c = true) : 50 < c.length := by
  simp only [keepChunk, Bool.and_eq_true, decide_eq_true_eq] at h
  exact h.2

/-- C2: the claim states the chunking loop makes forward progress and
terminates for every configuration, forcing `start = end` whenever the
overlap step would fail to advance the cursor.  The code's guard (line 159
of text_processor.py) only fires when `end - overlap` is negative: with
`chunk_size = overlap = 10` on a 60-character text the cursor is stuck at
`0` (`end = 10`, next start `= 10 - 10 = 0`), and the loop never returns,
whatever the fuel. -/
theorem chunk_loop_diverges_overlap_eq_size :
    ¬ ∃ fuel r, chunkTextGo 10 10 (List.replicate 60 'a') fuel 0 = some r := by
  have key : ∀ fuel, chunkTextGo 10 10 (List.replicate 60 'a') fuel 0 = none := by
    intro fuel
    induction fuel with
    | zero => rfl
    | succ n ih =>
      rw [chunkTextGo_succ]
      rw [show windowEnd 10 (List.replicate 60 'a') 0 = 10 by decide]
      rw [show nextStart 10 10 = 0 by decide]
      rw [if_pos (by simp), if_neg (by simp), ih]
      rfl
  rintro ⟨fuel, r, hr⟩
  rw [key fuel] at hr
  exact Option.noConfusion hr

/-- C7 counterexample: the claim states a produced slice is discarded
exactly when it is shorter than 50 characters, so a 50-character text (one
window, whole-text slice of exactly 50 characters) would have to yield that
slice as a chunk; the code's keep-guard (`len(chunk) > 50`, line 149)
discards it and `chunk_text` returns no chunks. -/
theorem chunk_exact_50_discarded :
    (pyStrip (List.replicate 50 'a')).length = 50 ∧
    chunk_text 1000 200 (List.replicate 50 'a') = some [] := by
  constructor
  · decide
  · decide

/-- C7 (amended): texts shorter than 50 characters yield no chunks, and a
produced (stripped) slice is discarded exactly when the keep-guard
`keepChunk` rejects it — it is non-empty and longer than 50 characters —
so every chunk in the output has more than 50 characters (at least 51, not
at least 50). -/
theorem chunk_discard_threshold :
    (∀ cs ov (text : List Char), text.length < 50 → chunk_text cs ov text = some []) ∧
    (∀ cs ov (text : List Char),
        chunk_text cs ov text = (chunkSlices cs ov text).map (List.filter keepChunk)) ∧
    (∀ cs ov (text : List Char) cks, chunk_text cs ov text = some cks →
        ∀ c ∈ cks, 50 < c.length) := by
  refine ⟨?_, fun cs ov text => chunk_text_eq_filter cs ov text, ?_⟩
  · intro cs ov text h
    simp [chunk_text, h]
  · intro cs ov text cks h c hc
    rw [chunk_text_eq_filter] at h
    obtain ⟨sl, _, rfl⟩ := Option.map_eq_some'.mp h
    exact keepChunk_length (List.of_mem_filter hc)

/-- C7 witness: the amended theorem applied to a 10-character text (shorter
than 50, so no chunks) and to the 101-chunk output of a 150-character text
(every chunk longer than 50). -/
theorem chunk_discard_threshold_witness :
    chunk_text 1000 200 (List.replicate 10 'a') = some [] ∧
    50 < (List.replicate 101 'a').length := by
  constructor
  · exact chunk_discard_threshold.1 1000 200 (List.replicate 10 'a') (by decide)
  · exact chunk_discard_threshold.2.2 101 0 (List.replicate 150 'a')
      [List.replicate 101 'a'] (by decide) (List.replicate 101 'a') (by simp)

theorem chunkTextGo_substring (cs ov : Nat) (text : List Char) :
    ∀ fuel start cks, chunkTextGo cs ov text fuel start = some cks →
      ∀ c ∈ cks, c <:+: text := by
  intro fuel
  induction fuel with
  | zero => intro start cks h; exact absurd h (by simp [chunkTextGo])
  | succ n ih =>
    intro start cks h c hc
    rw [chunkTextGo_succ] at h
    by_cases h1 : start < text.length
    · rw [if_pos h1] at h
      by_cases h2 : text.length ≤ windowEnd cs text start
      · rw [if_pos h2] at h
        cases h
        have : c = windowChunk cs text start := by
          by_cases hk : keepChunk (windowChunk cs text start) <;>
            simp [windowKept, hk] at hc <;> simp [hc]
        rw [this]; exact windowChunk_substring ..
      · rw [if_neg h2] at h
        obtain ⟨r, hr, rfl⟩ := Option.map_eq_some'.mp h
        rcases List.mem_append.mp hc with hmem | hmem
        · have : c = windowChunk cs text start := by
            by_cases hk : keepChunk (windowChunk cs text start) <;>
              simp [windowKept, hk] at hmem <;> simp [hmem]
          rw [this]; exact windowChunk_substring ..
        · exact ih _ _ hr c hmem
    · rw [if_neg h1] at h
      cases h
      cases hc

/-- C1 counterexample: the claim states that re-joining the chunks after
dropping each non-final chunk's trailing `overlap` characters reconstructs
the cleaned text, for any configuration with `overlap < chunkSize` and
`chunkSize > 100`.  With `chunk_size = 101`, `overlap = 0` on 150
characters, the final 49-character slice is discarded by the keep-guard, so
the re-joined text is only the first 101 characters. -/
theorem chunk_rejoin_counterexample :
    (0 : Nat) < 101 ∧ (100 : Nat) < 101 ∧
    chunk_text 101 0 (List.replicate 150 'a') = some [List.replicate 101 'a'] ∧
    rejoinChunks 0 [List.replicate 101 'a'] ≠ List.replicate 150 'a' := by
  refine ⟨by decide, by decide, by decide, by decide⟩

/-- C1 (amended): for every chunking configuration with
`overlap < chunkSize` and `chunkSize > 100` (the claim's scope), every
chunk returned by a terminating run of `chunk_text` is a contiguous
substring of the cleaned text — no characters are invented — but
characters beyond the declared overlap may be dropped (slices of at most
50 characters are discarded and boundary whitespace is stripped), so the
re-joined chunks need not reconstruct the text. -/
theorem chunk_text_chunks_substring (cs ov : Nat) (text : List Char)
    (hov : ov < cs) (hcs : 100 < cs) (cks : List (List Char))
    (h : chunk_text cs ov text = some cks) : ∀ c ∈ cks, c <:+: text := by
  unfold chunk_text at h
  split at h
  · cases h
    intro c hc
    cases hc
  · exact chunkTextGo_substring cs ov text _ _ _ h

/-- C1 witness: the amended theorem applied to the 150-character input of
the counterexample. -/
theorem chunk_text_chunks_substring_witness :
    List.replicate 101 'a' <:+: List.replicate 150 'a' :=
  chunk_text_chunks_substring 101 0 (List.replicate 150 'a') (by decide) (by decide)
    [List.replicate 101 'a'] (by decide) (List.replicate 101 'a') (by simp)

/-- C6: when retrieval returns zero results, `generate_answer`
short-circuits with `success = false`, the fixed no-information answer and
an empty source list, and the language-model call site is never reached
(the returned flag is `false` for every `llm` oracle). -/
theorem generate_answer_empty_retrieval (query : List Char)
    (raw : Except (List Char) RawQueryResult)
    (llm : List Char → Except (List Char) (List Char))
    (h : (retrieve query raw).count = 0) :
    generate_answer query raw llm =
      ({ query := query, answer := noInfoAnswer, sources := [],
         num_chunks_used := none, success := false,
         error := some ("No relevant documents found".data) }, false) := by
  simp [generate_answer, h]

/-- C6 witness: an index answer with no documents. -/
theorem generate_answer_empty_retrieval_witness :
    generate_answer ("q".data) (.ok ⟨[], [], []⟩) (fun _ => .ok ("hi".data)) =
      ({ query := ("q".data), answer := noInfoAnswer, sources := [],
         num_chunks_used := none, success := false,
         error := some ("No relevant documents found".data) }, false) :=
  generate_answer_empty_retrieval ("q".data) (.ok ⟨[], [], []⟩)
    (fun _ => .ok ("hi".data)) (by decide)

/-- C3 counterexample: the claim states that an exception raised during any
of steps 1-3 surfaces as `success = false` with that exception's message
embedded in the answer text.  An exception in step 1 is caught inside
`retrieve` (rag_pipeline.py lines 97-108) and converted to an empty
retrieval, so `generate_answer` returns the fixed no-information answer:
`success` is `false` but the message "boom" appears nowhere in the answer. -/
theorem retrieval_error_not_embedded :
    (generate_answer ("q".data) (.error ("boom".data)) (fun _ => .ok [])).1.success = false ∧
    (generate_answer ("q".data) (.error ("boom".data)) (fun _ => .ok [])).1.answer =
      noInfoAnswer ∧
    ¬ ("boom".data) <:+: noInfoAnswer := by
  refine ⟨rfl, rfl, by decide⟩

/-- C3 (amended): `generate_answer` is a total function — no exception
reaches the caller.  An exception in the language-model call (step 3)
yields `success = false` with the message embedded in the answer after the
fixed prefix; an exception in retrieval (step 1) is caught inside
`retrieve` and surfaces as the fixed no-information answer with
`success = false`, without the message. -/
theorem generate_answer_exception_handling :
    (∀ q e llm, (generate_answer q (.error e) llm).1.success = false ∧
        (generate_answer q (.error e) llm).1.answer = noInfoAnswer) ∧
    (∀ q (raw : Except (List Char) RawQueryResult) llm e,
        (retrieve q raw).count ≠ 0 →
        llm (create_prompt q (retrieve q raw).documents (retrieve q raw).metadatas) =
          .error e →
        (generate_answer q raw llm).1.success = false ∧
        (generate_answer q raw llm).1.answer = errAnswerHead ++ e) := by
  constructor
  · intro q e llm
    constructor <;> rfl
  · intro q raw llm e hne hllm
    simp [generate_answer, hne, hllm]

/-- C3 witness: the amended theorem at a one-document retrieval whose
language-model call raises "boom". -/
theorem generate_answer_exception_handling_witness :
    ((generate_answer ("q".data)
        (.ok ⟨[("d".data)], [⟨("u".data), ("t".data), ("0".data), ("1".data), ("1".data)⟩],
          [0]⟩)
        (fun _ => .error ("boom".data))).1.success = false ∧
      (generate_answer ("q".data)
        (.ok ⟨[("d".data)], [⟨("u".data), ("t".data), ("0".data), ("1".data), ("1".data)⟩],
          [0]⟩)
        (fun _ => .error ("boom".data))).1.answer = errAnswerHead ++ ("boom".data)) ∧
    (generate_answer ("q".data) (.error ("x".data)) (fun _ => .ok [])).1.success = false :=
  ⟨generate_answer_exception_handling.2 ("q".data)
      (.ok ⟨[("d".data)], [⟨("u".data), ("t".data), ("0".data), ("1".data), ("1".data)⟩], [0]⟩)
      (fun _ => .error ("boom".data)) ("boom".data) (by decide) rfl,
    (generate_answer_exception_handling.1 ("q".data) ("x".data) (fun _ => .ok [])).1⟩

theorem crawl_and_index_cases (cs ov : Nat) (st : ApiState)
    (cr : Except (List Char) (List Document)) (cl : Except (List Char) Unit)
    (ad : AddOutcome) (out : CrawlReply × ApiState × IngestEffects)
    (hacc : st.is_crawling = false)
    (hout : crawl_and_index cs ov st cr cl ad = some out) :
    out.1 ≠ CrawlReply.conflict409 ∧ out.2.1.is_crawling = false := by
  unfold crawl_and_index at hout
  rw [hacc, if_neg Bool.false_ne_true] at hout
  repeat' split at hout
  all_goals first
    | exact Option.noConfusion hout
    | (injection hout with h; subst h; exact ⟨by simp, rfl⟩)

/-- C8: an accepted `/crawl` request (in-flight flag clear on entry) leaves
the flag clear on every completed exit — success, the zero-pages or
zero-chunks early returns, a crawl failure, or a clear/insert exception —
so a subsequent ingestion request against the resulting state is never
rejected with the 409 conflict. -/
theorem crawl_flag_released (cs ov : Nat) (st : ApiState)
    (cr : Except (List Char) (List Document)) (cl : Except (List Char) Unit)
    (ad : AddOutcome) (out : CrawlReply × ApiState × IngestEffects)
    (hacc : st.is_crawling = false)
    (hout : crawl_and_index cs ov st cr cl ad = some out) :
    out.2.1.is_crawling = false ∧
      ∀ cr' cl' ad' out', crawl_and_index cs ov out.2.1 cr' cl' ad' = some out' →
        out'.1 ≠ CrawlReply.conflict409 := by
  have h1 := crawl_and_index_cases cs ov st cr cl ad out hacc hout
  refine ⟨h1.2, ?_⟩
  intro cr' cl' ad' out' hout'
  exact (crawl_and_index_cases cs ov out.2.1 cr' cl' ad' out' h1.2 hout').1

/-- C8 witness: a first request whose crawler raises, followed by a second
request, on a store that starts idle. -/
theorem crawl_flag_released_witness :
    ((CrawlReply.serverError500 (("Crawl failed: ".data) ++ ("e".data)),
        ({ is_crawling := false, store := [] } : ApiState),
        ({ clearCalled := false, addCalled := false } : IngestEffects)).2.1.is_crawling
      = false) ∧
    (CrawlReply.resp false ("No pages were crawled. Please check the URL.".data)
        (some 0) none none) ≠ CrawlReply.conflict409 := by
  have h := crawl_flag_released 1000 200 ⟨false, []⟩ (.error ("e".data)) (.ok ()) .ok
    (CrawlReply.serverError500 (("Crawl failed: ".data) ++ ("e".data)),
      ({ is_crawling := false, store := [] } : ApiState),
      ({ clearCalled := false, addCalled := false } : IngestEffects)) rfl (by decide)
  refine ⟨h.1, ?_⟩
  have h2 := h.2 (.ok []) (.ok ()) .ok
    (CrawlReply.resp false ("No pages were crawled. Please check the URL.".data)
        (some 0) none none,
      ({ is_crawling := false, store := [] } : ApiState),
      ({ clearCalled := false, addCalled := false } : IngestEffects)) (by decide)
  exact h2

/-- C9: an accepted request that crawls at least one page but whose
chunking yields zero chunks returns `success = false` without invoking
`clear_collection` or `add_documents`, leaving the vector-store contents
exactly as they were; and on any accepted request, `clear_collection` is
invoked only when chunking produced at least one chunk. -/
theorem crawl_no_chunks_preserves_store (cs ov : Nat) (st : ApiState)
    (pages : List Document) (cl : Except (List Char) Unit) (ad : AddOutcome)
    (hacc : st.is_crawling = false) (hne : pages.isEmpty = false)
    (hchunks : process_documents cs ov pages = some []) :
    (crawl_and_index cs ov st (.ok pages) cl ad =
      some (.resp false ("No chunks created. Content may be too short.".data)
        (some pages.length) (some 0) none,
        { is_crawling := false, store := st.store },
        { clearCalled := false, addCalled := false })) ∧
    (∀ cr' cl' ad' (out' : CrawlReply × ApiState × IngestEffects),
        crawl_and_index cs ov st cr' cl' ad' = some out' →
        out'.2.2.clearCalled = true →
        ∃ ps cks, cr' = .ok ps ∧ process_documents cs ov ps = some cks ∧ cks ≠ []) := by
  constructor
  · simp [crawl_and_index, hacc, hne, hchunks]
  · intro cr' cl' ad' out' hout' hclear
    unfold crawl_and_index at hout'
    rw [hacc, if_neg Bool.false_ne_true] at hout'
    split at hout'
    · injection hout' with h; subst h; simp at hclear
    · rename_i ps
      split at hout'
      · injection hout' with h; subst h; simp at hclear
      · split at hout'
        · exact Option.noConfusion hout'
        · injection hout' with h; subst h; simp at hclear
        · rename_i cks hcks hne'
          refine ⟨ps, cks, rfl, ?_, ?_⟩ <;> simp_all

/-- C9 witness: one crawled page whose cleaned content is under 100
characters, so chunking yields zero chunks; the store (holding one chunk
beforehand) is untouched. -/
theorem crawl_no_chunks_preserves_store_witness :
    crawl_and_index 1000 200
        ⟨false, [⟨("x".data), ("u".data), ("t".data), 0, 1, 1⟩]⟩
        (.ok [⟨("u".data), ("t".data), ("tiny".data)⟩]) (.ok ()) .ok =
      some (.resp false ("No chunks created. Content may be too short.".data)
        (some 1) (some 0) none,
        { is_crawling := false,
          store := [⟨("x".data), ("u".data), ("t".data), 0, 1, 1⟩] },
        { clearCalled := false, addCalled := false }) :=
  (crawl_no_chunks_preserves_store 1000 200
      ⟨false, [⟨("x".data), ("u".data), ("t".data), 0, 1, 1⟩]⟩
      [⟨("u".data), ("t".data), ("tiny".data)⟩] (.ok ()) .ok
      rfl (by decide) (by decide)).1

theorem process_documents_urls (cs ov : Nat) :
    ∀ (ds : List Document) out, process_documents cs ov ds = some out →
      ∀ c ∈ out, c.url ∈ ds.map Document.url := by
  intro ds
  induction ds with
  | nil =>
    intro out h c hc
    injection h with h'
    subst h'
    cases hc
  | cons d ds ih =>
    intro out h c hc
    simp only [process_documents] at h
    split at h
    · exact List.mem_cons_of_mem _ (ih out h c hc)
    · split at h
      · exact Option.noConfusion h
      · exact List.mem_cons_of_mem _ (ih out h c hc)
      · obtain ⟨rest, hr, rfl⟩ := Option.map_eq_some'.mp h
        rcases List.mem_append.mp hc with hm | hm
        · obtain ⟨ic, _, rfl⟩ := List.mem_map.mp hm
          simp
        · exact List.mem_cons_of_mem _ (ih rest hr c hm)

/-- C5 (amended): for every document list whose URLs are pairwise distinct,
the chunks that `process_documents` produces for a given `sourceUrl` carry
chunk indices `0, 1, …, k-1` in order (`k` the number of chunks of that
source, so indices are unique and gap-free) and each carries
`total_chunks = k`. -/
theorem process_documents_chunk_ids (cs ov : Nat) (docs : List Document)
    (hnodup : (docs.map Document.url).Nodup) (out : List Chunk)
    (h : process_documents cs ov docs = some out) (u : List Char) :
    ((out.filter (fun c => c.url == u)).map Chunk.chunk_id) =
        List.range (out.filter (fun c => c.url == u)).length ∧
      ∀ c ∈ out.filter (fun c => c.url == u),
        c.total_chunks = (out.filter (fun c => c.url == u)).length := by
  induction docs generalizing out with
  | nil =>
    injection h with h'
    subst h'
    simp
  | cons d ds ih =>
    have hd : d.url ∉ ds.map Document.url := (List.nodup_cons.mp hnodup).1
    have hnd : (ds.map Document.url).Nodup := (List.nodup_cons.mp hnodup).2
    simp only [process_documents] at h
    split at h
    · exact ih hnd out h
    · split at h
      · exact Option.noConfusion h
      · exact ih hnd out h
      · rename_i cks hne0 hck
        obtain ⟨rest, hr, rfl⟩ := Option.map_eq_some'.mp h
        have hrest := ih hnd rest hr
        have hmap_all : ∀ x ∈ cks.enum.map (fun ic =>
            ({ text := ic.2, url := d.url, title := d.title, chunk_id := ic.1,
               total_chunks := cks.length, char_count := ic.2.length } : Chunk)),
            x.url = d.url := by
          intro x hx
          obtain ⟨ic, _, rfl⟩ := List.mem_map.mp hx
          rfl
        by_cases hu : d.url = u
        · have h1 : (cks.enum.map (fun ic =>
              ({ text := ic.2, url := d.url, title := d.title, chunk_id := ic.1,
                 total_chunks := cks.length, char_count := ic.2.length } : Chunk))).filter
                (fun c => c.url == u) =
              cks.enum.map (fun ic =>
                ({ text := ic.2, url := d.url, title := d.title, chunk_id := ic.1,
                   total_chunks := cks.length, char_count := ic.2.length } : Chunk)) := by
            refine List.filter_eq_self.mpr (fun x hx => ?_)
            rw [hmap_all x hx, hu]
            exact beq_self_eq_true u
          have h2 : rest.filter (fun c => c.url == u) = [] := by
            refine List.filter_eq_nil.mpr (fun c hc => ?_)
            have hmem := process_documents_urls cs ov ds rest hr c hc
            intro hbe
            rw [beq_iff_eq] at hbe
            rw [hbe, ← hu] at hmem
            exact hd hmem
          rw [List.filter_append, h1, h2, List.append_nil]
          constructor
          · rw [List.map_map]
            have hcomp : (Chunk.chunk_id ∘ fun (ic : Nat × List Char) =>
                ({ text := ic.2, url := d.url, title := d.title, chunk_id := ic.1,
                   total_chunks := cks.length, char_count := ic.2.length } : Chunk)) =
                Prod.fst := funext fun ic => rfl
            rw [hcomp, List.enum_map_fst]
            simp [List.enum_length]
          · intro c hc
            obtain ⟨ic, _, rfl⟩ := List.mem_map.mp hc
            simp [List.enum_length]
        · have h1 : (cks.enum.map (fun ic =>
              ({ text := ic.2, url := d.url, title := d.title, chunk_id := ic.1,
                 total_chunks := cks.length, char_count := ic.2.length } : Chunk))).filter
                (fun c => c.url == u) = [] := by
            refine List.filter_eq_nil.mpr (fun c hc => ?_)
            rw [hmap_all c hc]
            intro hbe
            exact hu (beq_iff_eq.mp hbe)
          rw [List.filter_append, h1, List.nil_append]
          exact hrest

/-- C5 counterexample: the claim quantifies over every document list; with
the same URL appearing in two documents, both sources' chunks carry
`chunk_id = 0`, so chunk indices are not unique within that `sourceUrl`. -/
theorem process_documents_dup_url_counterexample :
    process_documents 1000 200
        [⟨("u".data), ("t".data), List.replicate 100 'a'⟩,
         ⟨("u".data), ("t".data), List.replicate 100 'a'⟩] =
      some [⟨List.replicate 100 'a', ("u".data), ("t".data), 0, 1, 100⟩,
            ⟨List.replicate 100 'a', ("u".data), ("t".data), 0, 1, 100⟩] ∧
    ¬ (([⟨List.replicate 100 'a', ("u".data), ("t".data), 0, 1, 100⟩,
         ⟨List.replicate 100 'a', ("u".data), ("t".data), 0, 1, 100⟩] : List Chunk).filter
          (fun c => c.url == ("u".data))).Pairwise
        (fun a b => a.chunk_id ≠ b.chunk_id) := by
  constructor
  · decide
  · decide

/-- C5 witness: the amended theorem on a single 100-character document. -/
theorem process_documents_chunk_ids_witness :
    (([⟨List.replicate 100 'a', ("u".data), ("t".data), 0, 1, 100⟩] : List Chunk).filter
        (fun c => c.url == ("u".data))).map Chunk.chunk_id =
      List.range (([⟨List.replicate 100 'a', ("u".data), ("t".data), 0, 1, 100⟩] :
          List Chunk).filter (fun c => c.url == ("u".data))).length :=
  (process_documents_chunk_ids 1000 200
      [⟨("u".data), ("t".data), List.replicate 100 'a'⟩] (by decide)
      [⟨List.replicate 100 'a', ("u".data), ("t".data), 0, 1, 100⟩] (by decide)
      ("u".data)).1

theorem addLinksLoop_spec (visited : List (List Char)) :
    ∀ (L frontier : List (List Char)), ∃ added,
      addLinksLoop visited frontier L = frontier ++ added ∧ added.Nodup ∧
        ∀ x, x ∈ added ↔ x ∈ L ∧ x ∉ visited ∧ x ∉ frontier := by
  intro L
  induction L with
  | nil =>
    intro frontier
    exact ⟨[], by simp [addLinksLoop], by simp, by simp⟩
  | cons l ls ih =>
    intro frontier
    have hmem : (!(visited.contains l) && !(frontier.contains l)) = true ↔
        (l ∉ visited ∧ l ∉ frontier) := by
      simp [List.contains, List.elem_iff]
    by_cases hc : (!(visited.contains l) && !(frontier.contains l)) = true
    · obtain ⟨hv, hf⟩ := hmem.mp hc
      obtain ⟨added, ha, hn, hm⟩ := ih (frontier ++ [l])
      refine ⟨l :: added, ?_, ?_, ?_⟩
      · simp only [addLinksLoop, hc, if_true]
        rw [ha, List.append_assoc]
        rfl
      · refine List.Nodup.cons (fun hl => ?_) hn
        have := (hm l).mp hl
        exact this.2.2 (by simp)
      · intro x
        constructor
        · intro hx
          rcases List.mem_cons.mp hx with rfl | hx
          · exact ⟨by simp, hv, hf⟩
          · obtain ⟨h1, h2, h3⟩ := (hm x).mp hx
            exact ⟨List.mem_cons_of_mem _ h1, h2, fun hxf => h3 (by simp [hxf])⟩
        · rintro ⟨h1, h2, h3⟩
          rcases List.mem_cons.mp h1 with rfl | h1
          · exact List.mem_cons_self ..
          · by_cases hxl : x = l
            · subst hxl; exact List.mem_cons_self ..
            · exact List.mem_cons_of_mem _ ((hm x).mpr ⟨h1, h2, by simp [hxl, h3]⟩)
    · have hor : l ∈ visited ∨ l ∈ frontier := by
        by_contra hno
        push_neg at hno
        exact hc (hmem.mpr hno)
      obtain ⟨added, ha, hn, hm⟩ := ih frontier
      refine ⟨added, ?_, hn, ?_⟩
      · simp only [addLinksLoop, hc, if_false]
        exact ha
      · intro x
        rw [hm x]
        constructor
        · rintro ⟨h1, h2, h3⟩
          exact ⟨List.mem_cons_of_mem _ h1, h2, h3⟩
        · rintro ⟨h1, h2, h3⟩
          rcases List.mem_cons.mp h1 with rfl | h1
          · exact absurd hor (by tauto)
          · exact ⟨h1, h2, h3⟩

/-- C4 (amended): for every retained page, the valid extracted links are
appended to the frontier de-duplicated against the visited set, the current
frontier and each other — the appended block contains exactly the valid
links not already visited or queued, each once — but in an unspecified
order: the `list(set(links))` conversion of crawler.py line 241 forgets
discovery order (any set-semantics conversion `pySet` is admitted). -/
theorem crawl_frontier_members (lib : UrlLib)
    (pySet : List (List Char) → List (List Char)) (domain : List Char)
    (visited frontier : List (List Char)) (hrefs : List Char → List (List Char))
    (currentUrl : List Char)
    (hset : ∀ l, (pySet l).Nodup ∧ ∀ x, x ∈ pySet l ↔ x ∈ l) :
    ∃ added, crawlAddLinks lib pySet domain visited frontier hrefs currentUrl =
        frontier ++ added ∧ added.Nodup ∧
      ∀ x, x ∈ added ↔
        (x ∈ extractLinksRaw lib domain visited (hrefs currentUrl) currentUrl ∧
          x ∉ visited ∧ x ∉ frontier) := by
  obtain ⟨added, ha, hn, hm⟩ := addLinksLoop_spec visited
    (extract_links lib pySet domain visited (hrefs currentUrl) currentUrl) frontier
  refine ⟨added, ha, hn, fun x => ?_⟩
  rw [hm x]
  unfold extract_links
  rw [(hset _).2 x]

/-- C4 counterexample: the claim has the valid links appended in discovery
order; a set-semantics conversion that happens to enumerate the set in
reverse (perfectly legal for Python's hash-ordered `set`) appends the two
valid links of this page in the opposite order. -/
theorem extract_links_order_counterexample :
    ¬ ∀ (pySet : List (List Char) → List (List Char)),
        (∀ l, (pySet l).Nodup ∧ ∀ x, x ∈ pySet l ↔ x ∈ l) →
        ∀ lib domain visited frontier hrefs currentUrl,
          crawlAddLinks lib pySet domain visited frontier hrefs currentUrl =
            frontier ++ ((extractLinksRaw lib domain visited (hrefs currentUrl)
                currentUrl).filter
              (fun x => !(visited.contains x) && !(frontier.contains x))).dedup := by
  intro hclaim
  have hset : ∀ l : List (List Char), (l.reverse.dedup).Nodup ∧
      ∀ x, x ∈ l.reverse.dedup ↔ x ∈ l := by
    intro l
    refine ⟨List.nodup_dedup _, fun x => ?_⟩
    rw [List.mem_dedup, List.mem_reverse]
  have h := hclaim (fun l => l.reverse.dedup) hset demoLib ("example.com".data) [] []
    (fun _ => [("http://example.com/a".data), ("http://example.com/b".data)])
    ("http://example.com".data)
  exact absurd h (by decide)

/-- C4 witness: the spec's link-filtering scenario — an off-domain link, a
`mailto:` link, a fragment-only link, and two same-domain links differing
only by a trailing slash; exactly one canonical link is appended. -/
theorem crawl_frontier_members_witness :
    ∃ added, crawlAddLinks demoLib (fun l => l.dedup) ("example.com".data) [] []
        (fun _ => [("http://other.com/p".data), ("mailto:bob@x.com".data),
          ("#sec".data), ("http://example.com/a".data), ("http://example.com/a/".data)])
        ("http://example.com".data) = [] ++ added ∧ added.Nodup ∧
      ∀ x, x ∈ added ↔
        (x ∈ extractLinksRaw demoLib ("example.com".data) []
            ([("http://other.com/p".data), ("mailto:bob@x.com".data),
              ("#sec".data), ("http://example.com/a".data),
              ("http://example.com/a/".data)])
            ("http://example.com".data) ∧
          x ∉ ([] : List (List Char)) ∧ x ∉ ([] : List (List Char))) :=
  crawl_frontier_members demoLib (fun l => l.dedup) ("example.com".data) [] []
    (fun _ => [("http://other.com/p".data), ("mailto:bob@x.com".data),
      ("#sec".data), ("http://example.com/a".data), ("http://example.com/a/".data)])
    ("http://example.com".data)
    (fun l => ⟨List.nodup_dedup l, fun x => List.mem_dedup⟩)

theorem isWordChar_of_digit {c : Char} (h : c.isDigit = true) : isWordChar c = true := by
  simp [isWordChar, Char.isAlphanum, h]

theorem optNotWord_some (c : Char) : optNotWord (some c) = !isWordChar c := rfl

theorem optNotWord_none : optNotWord none = true := rfl

theorem no_ctx_nil (pw : Bool) : ¬ StandaloneNumCtx pw [] := by
  rintro ⟨u, d, v, heq, hdne, -, -, -⟩
  have h := List.append_eq_nil.mp heq.symm
  exact hdne (List.append_eq_nil.mp h.1).2

theorem dropWhile_head_neg (p : Char → Bool) :
    ∀ (l : List Char) x xs, l.dropWhile p = x :: xs → p x = false := by
  intro l
  induction l with
  | nil => intro x xs h; cases h
  | cons c t ih =>
    intro x xs h
    by_cases hc : p c
    · rw [List.dropWhile_cons_of_pos hc] at h
      exact ih x xs h
    · rw [List.dropWhile_cons_of_neg hc] at h
      injection h with h1 _
      subst h1
      simpa using hc

theorem not_standalone_of_no_digit (s : List Char)
    (h : ∀ c ∈ s, c.isDigit = false) : ¬ StandaloneNum s := by
  rintro ⟨u, d, v, heq, hdne, hdig, -, -⟩
  obtain ⟨c, hc⟩ := List.exists_mem_of_ne_nil d hdne
  have h1 : c ∈ s := by
    rw [heq]
    exact List.mem_append.mpr (Or.inl (List.mem_append.mpr (Or.inr hc)))
  have h2 := List.all_eq_true.mp hdig c hc
  rw [h c h1] at h2
  exact Bool.noConfusion h2

/-- Transfer of the left context: a standalone segment of a string whose
head is not a digit cannot sit at the very head, so the context bit is
irrelevant. -/
theorem ctx_of_head_not_digit {pw pw' : Bool} {s : List Char}
    (hhead : ∀ c0, s.head? = some c0 → c0.isDigit = false)
    (h : StandaloneNumCtx pw s) : StandaloneNumCtx pw' s := by
  obtain ⟨u, d, v, heq, hdne, hdig, hbl, hbr⟩ := h
  cases u with
  | nil =>
    exfalso
    obtain ⟨d0, dt, rfl⟩ := List.exists_cons_of_ne_nil hdne
    rw [heq] at hhead
    have h1 := hhead d0 rfl
    have h2 := List.all_eq_true.mp hdig d0 (by simp)
    rw [h1] at h2
    exact Bool.noConfusion h2
  | cons u0 ut =>
    exact ⟨u0 :: ut, d, v, heq, hdne, hdig, hbl, hbr⟩

/-- No standalone segment survives in `run ++ out'` when `run` is a
non-empty digit run, `out'` starts with a word character that is not a
digit, and `out'` itself has no standalone segment in a word-left context. -/
theorem no_standalone_glue (run out' : List Char) (h0 : run ≠ [])
    (h1 : run.all Char.isDigit = true)
    (h2 : ∀ c0, out'.head? = some c0 → isWordChar c0 = true ∧ c0.isDigit = false)
    (h3 : out' ≠ [])
    (hno : ¬ StandaloneNumCtx true out') (pw : Bool) :
    ¬ StandaloneNumCtx pw (run ++ out') := by
  rintro ⟨u, d, v, heq, hdne, hdig, hbl, hbr⟩
  obtain ⟨hh, hht⟩ := List.exists_cons_of_ne_nil h3
  obtain ⟨t', rfl⟩ := hht
  obtain ⟨hw, hnd⟩ := h2 hh rfl
  rw [List.append_assoc] at heq
  rcases List.append_eq_append_iff.mp heq with ⟨a, hu, hout⟩ | ⟨b, hrun, hdv⟩
  · -- u = run ++ a, out' = a ++ (d ++ v)
    cases a with
    | nil =>
      -- u = run ends in a digit, contradicting the left bound
      rw [List.append_nil] at hu
      have hmem : run.getLast h0 ∈ run := List.getLast_mem h0
      have hdig0 := List.all_eq_true.mp h1 _ hmem
      rw [hu, List.getLast?_eq_getLast run h0] at hbl
      simp only [] at hbl
      rw [isWordChar_of_digit hdig0] at hbl
      exact Bool.noConfusion hbl
    | cons a0 at' =>
      apply hno
      refine ⟨a0 :: at', d, v, by rw [hout, List.append_assoc], hdne, hdig, ?_, hbr⟩
      have : u.getLast? = (a0 :: at').getLast? := by
        rw [hu]
        exact List.getLast?_append_of_ne_nil _ (by simp)
      rw [this] at hbl
      exact hbl
  · -- run = u ++ b, d ++ v = b ++ out'
    rcases List.append_eq_append_iff.mp hdv with ⟨a', hb2, hv⟩ | ⟨c', hd2, hout2⟩
    · -- b = d ++ a', v = a' ++ out'
      cases a' with
      | nil =>
        rw [List.nil_append] at hv
        rw [hv, List.head?_cons, optNotWord_some] at hbr
        simp [hw] at hbr
      | cons a0 at' =>
        have ha0run : a0 ∈ run := by
          rw [hrun, hb2]
          simp
        have := List.all_eq_true.mp h1 a0 ha0run
        rw [hv, List.cons_append, List.head?_cons, optNotWord_some] at hbr
        simp [isWordChar_of_digit this] at hbr
    · -- d = b ++ c', out' = c' ++ v
      cases c' with
      | nil =>
        rw [List.nil_append] at hout2
        rw [← hout2, List.head?_cons, optNotWord_some] at hbr
        simp [hw] at hbr
      | cons c0 ct' =>
        have hc0 : c0 ∈ d := by rw [hd2]; simp
        have hdigc0 := List.all_eq_true.mp hdig c0 hc0
        rw [List.cons_append] at hout2
        injection hout2 with he1 he2
        rw [← he1] at hdigc0
        rw [hdigc0] at hnd
        exact Bool.noConfusion hnd

theorem rsnGo_cons_not_digit (n : Nat) (pw : Bool) (c : Char) (s : List Char)
    (hcond : (c.isDigit && !pw) = false) :
    rsnGo (n + 1) pw (c :: s) = c :: rsnGo n (isWordChar c) s := by
  simp only [rsnGo]
  rw [hcond, if_neg Bool.false_ne_true]

theorem rsnGo_digit_branch (n : Nat) (pw : Bool) (c : Char) (s : List Char)
    (hcond : (c.isDigit && !pw) = true) :
    rsnGo (n + 1) pw (c :: s) =
      (if isWordChar (((c :: s).dropWhile Char.isDigit).headD ' ')
       then (c :: s).takeWhile Char.isDigit else []) ++
        rsnGo n true ((c :: s).dropWhile Char.isDigit) := by
  simp only [rsnGo]
  rw [if_pos hcond]

theorem rsnGo_nil (fuel : Nat) (pw : Bool) : rsnGo fuel pw [] = [] := by
  cases fuel <;> rfl

theorem rsnGo_no_standalone :
    ∀ (fuel : Nat) (pw : Bool) (s : List Char), s.length ≤ fuel →
      ¬ StandaloneNumCtx pw (rsnGo fuel pw s) := by
  intro fuel
  induction fuel with
  | zero =>
    intro pw s hle
    cases s with
    | nil => exact no_ctx_nil pw
    | cons c t => simp at hle
  | succ n ih =>
    intro pw s hle
    cases s with
    | nil => exact no_ctx_nil pw
    | cons c s =>
      by_cases hcond : (c.isDigit && !pw) = true
      · have hdigc : c.isDigit = true := by
          cases hc : c.isDigit
          · rw [hc] at hcond; simp at hcond
          · rfl
        rw [rsnGo_digit_branch n pw c s hcond]
        have hrest2 : (c :: s).dropWhile Char.isDigit = s.dropWhile Char.isDigit :=
          List.dropWhile_cons_of_pos hdigc
        have hrlen : ((c :: s).dropWhile Char.isDigit).length ≤ n := by
          rw [hrest2]
          exact Nat.le_trans (List.dropWhile_suffix _).length_le
            (Nat.succ_le_succ_iff.mp hle)
        have hrunne : (c :: s).takeWhile Char.isDigit ≠ [] := by
          rw [List.takeWhile_cons_of_pos hdigc]
          simp
        have hrunall : ((c :: s).takeWhile Char.isDigit).all Char.isDigit = true :=
          List.all_eq_true.mpr (fun x hx => List.mem_takeWhile_imp hx)
        cases hre : (c :: s).dropWhile Char.isDigit with
        | nil =>
          simp only [List.headD_nil]
          rw [if_neg (by decide : ¬ (isWordChar ' ' = true)), List.nil_append, rsnGo_nil]
          exact no_ctx_nil pw
        | cons h t =>
          have hhnd : h.isDigit = false := dropWhile_head_neg _ _ _ _ hre
          rw [hre] at hrlen
          obtain ⟨m, rfl⟩ : ∃ m, n = m + 1 := by
            cases n with
            | zero => simp at hrlen
            | succ m => exact ⟨m, rfl⟩
          have hdT : (h.isDigit && !true) = false := by simp
          simp only [List.headD_cons]
          by_cases hw : isWordChar h = true
          · rw [if_pos hw]
            apply no_standalone_glue _ _ hrunne hrunall ?_ ?_ ?_ pw
            · intro c0 hc0
              rw [rsnGo_cons_not_digit m true h t hdT, List.head?_cons] at hc0
              injection hc0 with he
              rw [← he]
              exact ⟨hw, hhnd⟩
            · rw [rsnGo_cons_not_digit m true h t hdT]
              simp
            · exact ih true _ hrlen
          · rw [if_neg hw, List.nil_append]
            intro hctx
            apply ih true (h :: t) hrlen
            apply ctx_of_head_not_digit ?_ hctx
            intro c0 hc0
            rw [rsnGo_cons_not_digit m true h t hdT, List.head?_cons] at hc0
            injection hc0 with he
            rw [← he]
            exact hhnd
      · rw [rsnGo_cons_not_digit n pw c s (by simpa using hcond)]
        rintro ⟨u, d, v, heq, hdne, hdig, hbl, hbr⟩
        cases u with
        | nil =>
          obtain ⟨d0, dt, rfl⟩ := List.exists_cons_of_ne_nil hdne
          rw [List.nil_append, List.cons_append] at heq
          injection heq with he1 he2
          have hd0 := List.all_eq_true.mp hdig d0 (by simp)
          rw [← he1] at hd0
          simp only [List.getLast?_nil] at hbl
          apply hcond
          rw [hd0, hbl]
          rfl
        | cons u0 ut =>
          rw [List.cons_append, List.cons_append] at heq
          injection heq with he1 he2
          apply ih (isWordChar c) s (Nat.succ_le_succ_iff.mp hle)
          refine ⟨ut, d, v, he2, hdne, hdig, ?_, hbr⟩
          cases ut with
          | nil =>
            simp only [List.getLast?_singleton] at hbl
            simp only [List.getLast?_nil]
            rw [he1]
            exact hbl
          | cons u1 ut' =>
            rw [List.getLast?_cons_cons] at hbl
            exact hbl

theorem rsnGo_id :
    ∀ (fuel : Nat) (pw : Bool) (s : List Char), s.length ≤ fuel →
      ¬ StandaloneNumCtx pw s → rsnGo fuel pw s = s := by
  intro fuel
  induction fuel with
  | zero =>
    intro pw s hle _
    cases s with
    | nil => rfl
    | cons c t => simp at hle
  | succ n ih =>
    intro pw s hle hno
    cases s with
    | nil => rfl
    | cons c s =>
      by_cases hcond : (c.isDigit && !pw) = true
      · have hdigc : c.isDigit = true := by
          cases hc : c.isDigit
          · rw [hc] at hcond; simp at hcond
          · rfl
        have hpw : pw = false := by
          cases hp : pw
          · rfl
          · rw [hp] at hcond; simp at hcond
        rw [rsnGo_digit_branch n pw c s hcond]
        have hsplit : (c :: s).takeWhile Char.isDigit ++ (c :: s).dropWhile Char.isDigit =
            c :: s := List.takeWhile_append_dropWhile Char.isDigit (c :: s)
        have hrlen : ((c :: s).dropWhile Char.isDigit).length ≤ n := by
          rw [List.dropWhile_cons_of_pos hdigc]
          exact Nat.le_trans (List.dropWhile_suffix _).length_le
            (Nat.succ_le_succ_iff.mp hle)
        have hrunne : (c :: s).takeWhile Char.isDigit ≠ [] := by
          rw [List.takeWhile_cons_of_pos hdigc]
          simp
        have hrunall : ((c :: s).takeWhile Char.isDigit).all Char.isDigit = true :=
          List.all_eq_true.mpr (fun x hx => List.mem_takeWhile_imp hx)
        by_cases hw : isWordChar (((c :: s).dropWhile Char.isDigit).headD ' ') = true
        · rw [if_pos hw]
          have hnorest : ¬ StandaloneNumCtx true ((c :: s).dropWhile Char.isDigit) := by
            rintro ⟨u, d, v, heq, hdne, hdig, hbl, hbr⟩
            apply hno
            refine ⟨(c :: s).takeWhile Char.isDigit ++ u, d, v, ?_, hdne, hdig, ?_, hbr⟩
            · rw [heq] at hsplit
              simpa [List.append_assoc] using hsplit.symm
            · cases u with
              | nil =>
                simp only [List.getLast?_nil] at hbl
                exact absurd hbl (by simp)
              | cons u0 ut =>
                rw [List.getLast?_append_of_ne_nil _ (by simp)]
                exact hbl
          rw [ih true _ hrlen hnorest]
          exact hsplit
        · exfalso
          apply hno
          refine ⟨[], (c :: s).takeWhile Char.isDigit, (c :: s).dropWhile Char.isDigit,
            by rw [List.nil_append]; exact hsplit.symm, hrunne, hrunall, ?_, ?_⟩
          · simp only [List.getLast?_nil]
            exact hpw
          · cases hre : (c :: s).dropWhile Char.isDigit with
            | nil => rfl
            | cons h t =>
              rw [List.head?_cons, optNotWord_some]
              rw [hre] at hw
              simp only [List.headD_cons] at hw
              simp [hw]
      · rw [rsnGo_cons_not_digit n pw c s (by simpa using hcond)]
        congr 1
        apply ih (isWordChar c) s (Nat.succ_le_succ_iff.mp hle)
        rintro ⟨u, d, v, heq, hdne, hdig, hbl, hbr⟩
        apply hno
        refine ⟨c :: u, d, v, by rw [heq]; simp, hdne, hdig, ?_, hbr⟩
        cases u with
        | nil =>
          simp only [List.getLast?_nil] at hbl
          simp only [List.getLast?_singleton]
          exact hbl
        | cons u0 ut =>
          rw [List.getLast?_cons_cons]
          exact hbl

theorem rsnGo_filter :
    ∀ (fuel : Nat) (pw : Bool) (s : List Char), s.length ≤ fuel →
      (rsnGo fuel pw s).filter (fun c => !c.isDigit) =
        s.filter (fun c => !c.isDigit) := by
  intro fuel
  induction fuel with
  | zero =>
    intro pw s hle
    cases s with
    | nil => rfl
    | cons c t => simp at hle
  | succ n ih =>
    intro pw s hle
    cases s with
    | nil => rfl
    | cons c s =>
      by_cases hcond : (c.isDigit && !pw) = true
      · have hdigc : c.isDigit = true := by
          cases hc : c.isDigit
          · rw [hc] at hcond; simp at hcond
          · rfl
        rw [rsnGo_digit_branch n pw c s hcond]
        have hsplit : (c :: s).takeWhile Char.isDigit ++ (c :: s).dropWhile Char.isDigit =
            c :: s := List.takeWhile_append_dropWhile Char.isDigit (c :: s)
        have hrlen : ((c :: s).dropWhile Char.isDigit).length ≤ n := by
          rw [List.dropWhile_cons_of_pos hdigc]
          exact Nat.le_trans (List.dropWhile_suffix _).length_le
            (Nat.succ_le_succ_iff.mp hle)
        have hrunfilter : ((c :: s).takeWhile Char.isDigit).filter (fun c => !c.isDigit) = [] :=
          List.filter_eq_nil.mpr (fun x hx => by simp [List.mem_takeWhile_imp hx])
        by_cases hw : isWordChar (((c :: s).dropWhile Char.isDigit).headD ' ') = true
        · rw [if_pos hw]
          conv_rhs => rw [← hsplit]
          rw [List.filter_append, List.filter_append, hrunfilter]
          simp only [List.nil_append]
          exact ih true _ hrlen
        · rw [if_neg hw, List.nil_append]
          conv_rhs => rw [← hsplit]
          rw [List.filter_append, hrunfilter, List.nil_append]
          exact ih true _ hrlen
      · rw [rsnGo_cons_not_digit n pw c s (by simpa using hcond)]
        simp only [List.filter_cons]
        rw [ih (isWordChar c) s (Nat.succ_le_succ_iff.mp hle)]

/-- C10 counterexample: the claim deletes every standalone number of the
raw input.  In `"a#123"` the token `123` is standalone (bounded by the
non-word `#` and the end of the string), yet `clean_text` removes the `#`
first (the special-character pass runs before the digit pass), so the
digits become embedded in `a123` and survive into the output. -/
theorem clean_text_input_standalone_survives :
    StandaloneNum ("a#123".data) ∧
    clean_text ("a#123".data) = ("a123".data) ∧
    ("123".data) <:+: clean_text ("a#123".data) := by
  refine ⟨⟨("a#".data), ("123".data), [], by decide, by decide, by decide, ?_, rfl⟩,
    by decide, ⟨("a".data), [], by decide⟩⟩
  show isWordChar '#' = false
  decide

/-- C10 (amended): the digit-removal stage of `clean_text` deletes every
standalone number of the text that reaches it — its output contains no
standalone digit token; a text without standalone tokens (in particular,
one whose digit runs are all embedded in words) passes through unchanged;
the stage deletes nothing but digits; and within `clean_text` it runs after
URL/email/whitespace/punctuation/special-character removal, so a token that
is standalone only in the raw input may become embedded and survive. -/
theorem clean_text_standalone_number_removal :
    (∀ s : List Char, ¬ StandaloneNum (removeStandaloneNumbers s)) ∧
    (∀ s : List Char, ¬ StandaloneNum s → removeStandaloneNumbers s = s) ∧
    (∀ s : List Char, (removeStandaloneNumbers s).filter (fun c => !c.isDigit) =
        s.filter (fun c => !c.isDigit)) ∧
    (∀ s : List Char, clean_text s = finalTidy (normalizeQuotes (removeArtifacts
        (removeStandaloneNumbers (removeSpecialChars (collapsePunct (collapseWs
          (removeEmails (removeUrls s))))))))) :=
  ⟨fun s => rsnGo_no_standalone s.length false s (Nat.le_refl _),
   fun s h => rsnGo_id s.length false s (Nat.le_refl _) h,
   fun s => rsnGo_filter s.length false s (Nat.le_refl _),
   fun _ => rfl⟩

/-- C10 witness: the amended theorem applied to the digit-free `"abc"`
(no standalone token, so the pass is the identity) and to `"a 12 b"`,
whose standalone `12` is deleted while every non-digit is kept. -/
theorem clean_text_standalone_number_removal_witness :
    removeStandaloneNumbers ("abc".data) = ("abc".data) ∧
    (removeStandaloneNumbers ("a 12 b".data)).filter (fun c => !c.isDigit) =
      ("a 12 b".data).filter (fun c => !c.isDigit) := by
  constructor
  · exact clean_text_standalone_number_removal.2.1 ("abc".data)
      (not_standalone_of_no_digit ("abc".data) (by decide))
  · exact clean_text_standalone_number_removal.2.2.1 ("a 12 b".data)
